import Mathlib

/-!
Verification of the steadybit extension-http HTTP check engine.

The Go source is shallowly embedded below:
* the `stop` verdict rule of `exthttpcheck` (common.go, `func stop`),
* the status-code expression resolver (util.go, `resolveStatusCodeExpression`),
* the per-attempt verification/metric pipeline (httpchecker.go,
  `performRequest`, `onError`, `onResponse`),
* the scheduler/worker interleaving of `httpChecker.start` and the worker
  loop as a small transition system,
* the FIXED_AMOUNT delay derivation (fixAmount.go).

Go `float64` arithmetic of the success-rate computation is modelled by
exact rationals; machine integers (`int64`, `uint64`) are modelled by
`Int`/`Nat` with the guards the code performs made explicit.
-/

/-- Model of `action_kit_api.ActionKitError`: the structured error the action API
returns to the caller.  Only the fields the embedded code writes are kept. -/
structure ActionKitError where
  title : String
  detail : Option String := none
  deriving DecidableEq, Repr

/-- Outcome of `stop`: either no error (verdict OK) or a structured FAILED
error (`result.Error = &ActionKitError{..., Status: Failed}`). -/
inductive Verdict where
  | ok : Verdict
  | failed (err : ActionKitError) : Verdict
  deriving DecidableEq, Repr

/-! The success-rate computation of `stop` runs in IEEE-754 binary64
(`float64(success) / float64(total) * 100.0` compared against
`float64(state.SuccessRate)`).  Binary64 values reachable here are
non-negative dyadic rationals; they are represented below as
mantissa/exponent pairs `(m, e) : ℕ × ℤ` standing for `m · 2 ^ e`, and each
conversion and arithmetic step rounds its exact fraction to 53 bits of
precision, to nearest, ties to even — exactly the binary64 behaviour in
the normal range (overflow and subnormals are unreachable for `uint64`
counters and rates in `[0, 100]`, and are not modelled). -/

/-- Fueled ⌊log₂ n⌋ (fuel ≥ n suffices; `natLog2 n n` is total log₂). -/
def natLog2 : ℕ → ℕ → ℕ
  | 0, _ => 0
  | fuel + 1, n => if 2 ≤ n then natLog2 fuel (n / 2) + 1 else 0

/-- Integer test `a / b ≥ 2 ^ k` for a fraction of naturals. -/
def fracGePow2 (a b : ℕ) (k : ℤ) : Bool :=
  if 0 ≤ k then b * 2 ^ k.toNat ≤ a else b ≤ a * 2 ^ (-k).toNat

/-- Exact ⌊log₂ (a / b)⌋ for `a, b ≥ 1`: the estimate from the integer
logs is off by at most one and is corrected by one exact comparison. -/
def floorLog2Frac (a b : ℕ) : ℤ :=
  let k0 : ℤ := (natLog2 a a : ℤ) - (natLog2 b b : ℤ)
  if fracGePow2 a b k0 then k0 else k0 - 1

/-- Round the fraction `a / b` (with `b ≥ 1`) to the nearest binary64
value (53-bit mantissa, round to nearest, ties to even), returned as a
mantissa/exponent pair. -/
def roundBinary64 (a b : ℕ) : ℕ × ℤ :=
  if a = 0 then (0, 0)
  else
    let e : ℤ := floorLog2Frac a b - 52
    let A : ℕ := if 0 ≤ e then a else a * 2 ^ (-e).toNat
    let B : ℕ := if 0 ≤ e then b * 2 ^ e.toNat else b
    let q := A / B
    let r := A % B
    let m := if B < 2 * r then q + 1
      else if 2 * r < B then q
      else if q % 2 = 0 then q else q + 1
    (m, e)

/-- A dyadic pair as a fraction of naturals. -/
def dyadicToFrac (p : ℕ × ℤ) : ℕ × ℕ :=
  if 0 ≤ p.2 then (p.1 * 2 ^ p.2.toNat, 1) else (p.1, 2 ^ (-p.2).toNat)

/-- Go `float64(n)` for a `uint64` counter (rounds once above `2 ^ 53`). -/
def floatOfNat (n : ℕ) : ℕ × ℤ := roundBinary64 n 1

/-- Binary64 division of two (non-negative) binary64 values. -/
def floatDiv (p q : ℕ × ℤ) : ℕ × ℤ :=
  let fp := dyadicToFrac p
  let fq := dyadicToFrac q
  roundBinary64 (fp.1 * fq.2) (fp.2 * fq.1)

/-- Binary64 multiplication by the exact constant `100.0`. -/
def floatMul100 (p : ℕ × ℤ) : ℕ × ℤ :=
  let f := dyadicToFrac p
  roundBinary64 (f.1 * 100) f.2

/-- The binary64 value `float64(success) / float64(total) * 100.0`
computed by `stop`, with each operation rounded. -/
def floatSuccessRate (success failed : ℕ) : ℕ × ℤ :=
  floatMul100 (floatDiv (floatOfNat success) (floatOfNat (success + failed)))

/-- Comparison `<` of two dyadic values by cross multiplication. -/
def dyadicLtB (p q : ℕ × ℤ) : Bool :=
  if 0 ≤ p.2 - q.2 then p.1 * 2 ^ (p.2 - q.2).toNat < q.1
  else p.1 < q.1 * 2 ^ (q.2 - p.2).toNat

/-- Comparison `≤` of two dyadic values. -/
def dyadicLeB (p q : ℕ × ℤ) : Bool := ! dyadicLtB q p

/-- Go rendering of a non-negative binary64 value with two decimal
digits: the correctly rounded decimal of the exact dyadic value, to
nearest, ties to even. -/
def fmtTwoDecimalsFloat (p : ℕ × ℤ) : String :=
  let f := dyadicToFrac p
  let A := f.1 * 100
  let B := f.2
  let q := A / B
  let r := A % B
  let n := if B < 2 * r then q + 1
    else if 2 * r < B then q
    else if q % 2 = 0 then q else q + 1
  toString (n / 100) ++ "." ++ (if n % 100 < 10 then "0" else "") ++ toString (n % 100)

/-- The exact rational value of a dyadic mantissa/exponent pair. -/
def dyadicVal (p : ℕ × ℤ) : ℚ := (p.1 : ℚ) * 2 ^ p.2

theorem dyadicLtB_iff (p q : ℕ × ℤ) :
    dyadicLtB p q = true ↔ dyadicVal p < dyadicVal q := by
  rcases p with ⟨m1, e1⟩
  rcases q with ⟨m2, e2⟩
  unfold dyadicLtB dyadicVal
  have h1 : (0:ℚ) < (2:ℚ) ^ e1 := by positivity
  have h2 : (0:ℚ) < (2:ℚ) ^ e2 := by positivity
  by_cases h : 0 ≤ e1 - e2
  · rw [if_pos h]
    have key : ((m1:ℚ) * 2 ^ (e1 - e2) < (m2:ℚ)) ↔ ((m1:ℚ) * 2 ^ e1 < (m2:ℚ) * 2 ^ e2) := by
      rw [zpow_sub₀ two_ne_zero, ← mul_div_assoc, div_lt_iff₀ h2]
    rw [← Int.toNat_of_nonneg h, zpow_natCast] at key
    rw [decide_eq_true_eq, ← key]
    exact_mod_cast Iff.rfl
  · rw [if_neg h]
    have key : ((m1:ℚ) < (m2:ℚ) * 2 ^ (e2 - e1)) ↔ ((m1:ℚ) * 2 ^ e1 < (m2:ℚ) * 2 ^ e2) := by
      rw [zpow_sub₀ two_ne_zero, ← mul_div_assoc, lt_div_iff₀ h1]
    have hnn : 0 ≤ e2 - e1 := by omega
    rw [← Int.toNat_of_nonneg hnn, zpow_natCast] at key
    rw [decide_eq_true_eq, ← key]
    exact_mod_cast Iff.rfl

theorem dyadicLeB_iff (p q : ℕ × ℤ) :
    dyadicLeB p q = true ↔ dyadicVal p ≤ dyadicVal q := by
  calc dyadicLeB p q = true ↔ dyadicLtB q p = false := by simp [dyadicLeB]
    _ ↔ ¬ (dyadicVal q < dyadicVal p) := by
        rw [← dyadicLtB_iff q p]; simp
    _ ↔ dyadicVal p ≤ dyadicVal q := not_lt

/-- The verdict computation of `func stop(state *HTTPCheckState)`:

    success := checker.counters.success.Load()
    failed  := checker.counters.failed.Load()
    total   := success + failed
    if total == 0 { Error = "No requests completed" (Failed) }
    else if successRate := float64(success)/float64(total)*100.0;
            successRate >= float64(state.SuccessRate) { no error }
    else { Error = "Success Rate (%.2f%%) was below %d%%" with detail }

all `float64` arithmetic evaluated in exact binary64 semantics. -/
def stopVerdict (success failed threshold : ℕ) : Verdict :=
  let total := success + failed
  if total = 0 then
    .failed { title := "No requests completed" }
  else
    let successRate := floatSuccessRate success failed
    if dyadicLeB (floatOfNat threshold) successRate then .ok
    else
      .failed
        { title := "Success Rate (" ++ fmtTwoDecimalsFloat successRate ++ "%) was below "
            ++ toString threshold ++ "%"
          detail := some (toString success ++ " of " ++ toString total
            ++ " requests were successful.") }

/-- The success rate exactly as the claim states it: `100 · s / (s + f)`. -/
def claimRate (success failed : ℕ) : ℚ :=
  100 * (success : ℚ) / ((success : ℚ) + (failed : ℚ))

set_option maxRecDepth 100000 in
/-- Counterexample for C1 as stated.  At success 29, failed 71, threshold
29 the exact rate `100 · 29 / 100` equals the threshold, so the claim
demands OK; but the program computes
`float64(29)/float64(100)*100.0 = 28.999999999999996 < 29.0` and returns
FAILED, titled "Success Rate (29.00%) was below 29%". -/
theorem stop_verdict_float_boundary_counterexample :
    claimRate 29 71 = 29 ∧ ¬ claimRate 29 71 < ((29 : ℕ) : ℚ) ∧
    stopVerdict 29 71 29 = .failed
      { title := "Success Rate (29.00%) was below 29%"
        detail := some "29 of 100 requests were successful." } := by
  refine ⟨by norm_num [claimRate], by norm_num [claimRate], by decide⟩

/-- C1 (amended).  For every call to `stop` with success count `s` and
failed count `f` read at stop time: if `s + f = 0` the result is a FAILED
verdict titled "No requests completed"; otherwise the result is FAILED —
with a title containing the binary64 rate rendered to two decimals and
the threshold — exactly when the binary64-evaluated rate
`float64(s)/float64(s+f)*100.0` is below `float64(threshold)`, and OK
otherwise.  This comparison can disagree with the exact rate
`100·s/(s+f)` at boundary inputs.  The verdict is a pure function of
`(s, f, threshold)` by construction. -/
theorem stop_verdict_float_rule (s f t : ℕ) :
    (s + f = 0 → stopVerdict s f t = .failed { title := "No requests completed" }) ∧
    (s + f ≠ 0 → dyadicVal (floatSuccessRate s f) < dyadicVal (floatOfNat t) →
      stopVerdict s f t = .failed
        { title := "Success Rate (" ++ fmtTwoDecimalsFloat (floatSuccessRate s f)
            ++ "%) was below " ++ toString t ++ "%"
          detail := some (toString s ++ " of " ++ toString (s + f)
            ++ " requests were successful.") }) ∧
    (s + f ≠ 0 → ¬ dyadicVal (floatSuccessRate s f) < dyadicVal (floatOfNat t) →
      stopVerdict s f t = .ok) := by
  refine ⟨fun h0 => ?_, fun hne hlt => ?_, fun hne hge => ?_⟩
  · simp [stopVerdict, h0]
  · have hb : dyadicLeB (floatOfNat t) (floatSuccessRate s f) = false := by
      rw [← Bool.not_eq_true, dyadicLeB_iff]
      exact fun hle => absurd hlt (not_lt.mpr hle)
    rw [stopVerdict]
    simp [hne, hb]
  · have hb : dyadicLeB (floatOfNat t) (floatSuccessRate s f) = true :=
      (dyadicLeB_iff _ _).mpr (not_lt.mp hge)
    rw [stopVerdict]
    simp [hne, hb]

set_option maxRecDepth 100000 in
/-- Witness for C1 (amended): with `s = 1`, `f = 3`, threshold `100` the
binary64 rate is exactly `25.0 < 100.0`, so the verdict is FAILED with
the rendered title. -/
theorem stop_verdict_float_rule_witness :
    stopVerdict 1 3 100 = .failed
      { title := "Success Rate (" ++ fmtTwoDecimalsFloat (floatSuccessRate 1 3)
          ++ "%) was below " ++ toString 100 ++ "%"
        detail := some (toString 1 ++ " of " ++ toString (1 + 3)
          ++ " requests were successful.") } :=
  (stop_verdict_float_rule 1 3 100).2.1 (by decide)
    ((dyadicLtB_iff _ _).mp (by decide))

/-! ### Per-attempt verification pipeline (httpchecker.go) -/

/-- The fields of `HTTPCheckState` the per-attempt pipeline and the stop
verdict read.  `ResponseTime` is the dereferenced `*state.ResponseTime`
duration in nanoseconds; `URL` is `req.URL.String()`. -/
structure HTTPCheckState where
  ExpectedStatusCodes : List String
  ResponsesContains : String
  ResponseTimeMode : String
  ResponseTime : ℤ
  SuccessRate : ℕ
  URL : String
  deriving DecidableEq, Repr

/-- Model of `strconv.Itoa`: decimal rendering of an integer. -/
def intToString (v : ℤ) : String :=
  if v < 0 then "-" ++ toString (-v).toNat else toString v.toNat

/-- Does `hay` start with `needle`? (helper for substring containment). -/
def startsWithSeq : List Char → List Char → Bool
  | [], _ => true
  | _ :: _, [] => false
  | a :: as, b :: bs => (a == b) && startsWithSeq as bs

/-- Does `needle` occur inside `hay` as a contiguous run? -/
def hasSubSeq : List Char → List Char → Bool
  | [], needle => startsWithSeq needle []
  | c :: t, needle => startsWithSeq needle (c :: t) || hasSubSeq t needle

/-- Model of `strings.Contains(s, sub)`. -/
def goStringContains (s sub : String) : Bool :=
  hasSubSeq s.data sub.data

/-- One `action_kit_api.Metric` record (timestamps are not modelled; the
`Metric` map of tags is kept in the literal order of the Go source). -/
structure Metric where
  name : String
  value : ℚ
  tags : List (String × String)
  deriving DecidableEq, Repr

/-- The observable outcome of `c.httpClient.Do(req)` for one attempt:
either an error — with the flag telling whether
`errors.Is(err, context.Canceled)` holds and the elapsed wall time in
milliseconds — or a response with its status code, optional body
(`nil` vs. present), whether `io.ReadAll` failed, and the tracer's
response time in nanoseconds. -/
inductive DoOutcome where
  | failure (errMsg : String) (isCanceledErr : Bool) (wallMs : ℤ)
  | response (statusCode : ℤ) (body : Option String) (readErr : Bool) (responseTimeNs : ℤ)
  deriving DecidableEq, Repr

/-- The `responseBodyWasSuccessful` computation of `performRequest`:

    responseBodyWasSuccessful := true
    if state.ResponsesContains != "" {
      if len(bodyBytes) == 0 || bodyErr != nil { false }
      else { strings.Contains(string(bodyBytes), state.ResponsesContains) } }
-/
def responseBodyWasSuccessful (st : HTTPCheckState) (body : Option String)
    (readErr : Bool) : Bool :=
  if st.ResponsesContains ≠ "" then
    let bodyBytes := body.getD ""
    if bodyBytes.length = 0 ∨ readErr = true then false
    else goStringContains bodyBytes st.ResponsesContains
  else true

/-- The `responseTimeWasSuccessful` switch of `performRequest`:
SHORTER_THAN compares `tracer.responseTime() <= *state.ResponseTime`,
LONGER_THAN compares `>=`, any other mode yields true. -/
def responseTimeWasSuccessful (st : HTTPCheckState) (responseTimeNs : ℤ) : Bool :=
  if st.ResponseTimeMode = "SHORTER_THAN" then decide (responseTimeNs ≤ st.ResponseTime)
  else if st.ResponseTimeMode = "LONGER_THAN" then decide (st.ResponseTime ≤ responseTimeNs)
  else true

/-- The metric built by `func (c *httpChecker) onError`. -/
def onErrorMetric (st : HTTPCheckState) (errMsg : String) (wallMs : ℤ)
    (responseStatusWasExpected : Bool) : Metric :=
  { name := "response_time"
    value := (wallMs : ℚ)
    tags := [("url", st.URL), ("error", errMsg),
             ("expected_http_status", toString responseStatusWasExpected)] }

/-- The metric built by `func (c *httpChecker) onResponse`; its value is
`float64(tracer.responseTime().Milliseconds())` (truncating ns → ms). -/
def onResponseMetric (st : HTTPCheckState) (statusCode : ℤ)
    (responseStatusWasExpected responseBodyOk responseTimeOk : Bool)
    (responseTimeNs : ℤ) : Metric :=
  { name := "response_time"
    value := ((responseTimeNs.tdiv 1000000 : ℤ) : ℚ)
    tags := [("url", st.URL),
             ("http_status", intToString statusCode),
             ("expected_http_status", toString responseStatusWasExpected),
             ("response_constraints_fulfilled", toString responseBodyOk),
             ("response_time_constraints_fulfilled", toString responseTimeOk)] }

/-- Model of `func (c *httpChecker) performRequest`, from the `Do` call on: the
emitted metric (if any) and the increments of the success and failed
counters.  A cancellation error returns before any metric or counter
update; any other error goes through `onError` with
`expected = slices.Contains(codes, "error")`; a response goes through the
verification triple and `onResponse`. -/
def performRequest (st : HTTPCheckState) (outcome : DoOutcome) :
    Option Metric × ℕ × ℕ :=
  match outcome with
  | .failure errMsg isCanceledErr wallMs =>
    if isCanceledErr then (none, 0, 0)
    else
      let responseStatusWasExpected := st.ExpectedStatusCodes.contains "error"
      (some (onErrorMetric st errMsg wallMs responseStatusWasExpected),
       if responseStatusWasExpected then 1 else 0,
       if responseStatusWasExpected then 0 else 1)
  | .response statusCode body readErr responseTimeNs =>
    let responseStatusWasExpected := st.ExpectedStatusCodes.contains (intToString statusCode)
    let responseBodyOk := responseBodyWasSuccessful st body readErr
    let responseTimeOk := responseTimeWasSuccessful st responseTimeNs
    (some (onResponseMetric st statusCode responseStatusWasExpected responseBodyOk
        responseTimeOk responseTimeNs),
     if responseStatusWasExpected && responseBodyOk && responseTimeOk then 1 else 0,
     if responseStatusWasExpected && responseBodyOk && responseTimeOk then 0 else 1)

/-- C9.  A cancellation error (the engine's context was cancelled while the
request was in flight) is silent: no metric is emitted and neither the
success nor the failed counter changes. -/
theorem cancellation_is_silent (st : HTTPCheckState) (errMsg : String) (wallMs : ℤ) :
    performRequest st (.failure errMsg true wallMs) = (none, 0, 0) := rfl

/-- C8.  Every metric emitted for an attempt carries exactly one of the
tags `http_status` and `error`: the error-path metric has `error` and no
`http_status`, the response-path metric has `http_status` and no `error`. -/
theorem metric_has_status_xor_error (st : HTTPCheckState) (outcome : DoOutcome)
    (m : Metric) (h : (performRequest st outcome).1 = some m) :
    ((m.tags.lookup "error").isSome ∧ m.tags.lookup "http_status" = none) ∨
    ((m.tags.lookup "http_status").isSome ∧ m.tags.lookup "error" = none) := by
  cases outcome with
  | failure errMsg isCanceledErr wallMs =>
    cases isCanceledErr with
    | true => simp [performRequest] at h
    | false =>
      left
      have hm : m = onErrorMetric st errMsg wallMs (st.ExpectedStatusCodes.contains "error") := by
        simpa [performRequest] using h.symm
      subst hm
      exact ⟨rfl, rfl⟩
  | response statusCode body readErr responseTimeNs =>
    right
    have hm : m = onResponseMetric st statusCode
        (st.ExpectedStatusCodes.contains (intToString statusCode))
        (responseBodyWasSuccessful st body readErr)
        (responseTimeWasSuccessful st responseTimeNs) responseTimeNs := by
      simpa [performRequest] using h.symm
    subst hm
    exact ⟨rfl, rfl⟩

/-- A concrete state for the pipeline witnesses. -/
def stExample : HTTPCheckState :=
  { ExpectedStatusCodes := ["error"]
    ResponsesContains := ""
    ResponseTimeMode := "NONE"
    ResponseTime := 0
    SuccessRate := 100
    URL := "http://localhost" }

/-- Witness for C8 at a concrete error-path metric. -/
theorem metric_has_status_xor_error_witness :
    (((onErrorMetric stExample "boom" 5 true).tags.lookup "error").isSome ∧
      (onErrorMetric stExample "boom" 5 true).tags.lookup "http_status" = none) ∨
    (((onErrorMetric stExample "boom" 5 true).tags.lookup "http_status").isSome ∧
      (onErrorMetric stExample "boom" 5 true).tags.lookup "error" = none) :=
  metric_has_status_xor_error stExample (.failure "boom" false 5)
    (onErrorMetric stExample "boom" 5 true) (by decide)

/-- C5.  A non-cancellation transport/TLS/timeout error is classified
expected exactly when the literal token "error" is among the expected
status codes; the success counter is incremented iff expected, otherwise
the failed counter is incremented.  In particular, with status expression
"error", a transport failure counts as a success while an HTTP 200
response counts as a failure. -/
theorem error_attempt_classification (st : HTTPCheckState) (errMsg : String)
    (wallMs : ℤ) (body : Option String) (readErr : Bool) (responseTimeNs : ℤ) :
    ((performRequest st (.failure errMsg false wallMs)).2.1
        = if st.ExpectedStatusCodes.contains "error" then 1 else 0) ∧
    ((performRequest st (.failure errMsg false wallMs)).2.2
        = if st.ExpectedStatusCodes.contains "error" then 0 else 1) ∧
    ((performRequest st (.failure errMsg false wallMs)).1
        = some (onErrorMetric st errMsg wallMs (st.ExpectedStatusCodes.contains "error"))) ∧
    (st.ExpectedStatusCodes = ["error"] →
      (performRequest st (.failure errMsg false wallMs)).2 = (1, 0) ∧
      (performRequest st (.response 200 body readErr responseTimeNs)).2 = (0, 1)) := by
  refine ⟨rfl, rfl, rfl, fun hcodes => ⟨?_, ?_⟩⟩
  · simp [performRequest, hcodes]
  · have hexp : st.ExpectedStatusCodes.contains (intToString 200) = false := by
      rw [hcodes]; decide
    simp only [performRequest, hexp, Bool.false_and, Bool.false_eq_true, if_false]

/-- Witness for C5 at status expression ["error"] (the state `stExample`). -/
theorem error_attempt_classification_witness :
    (performRequest stExample (.failure "tls handshake failure" false 7)).2 = (1, 0) ∧
    (performRequest stExample (.response 200 (some "ok") false 5)).2 = (0, 1) :=
  (error_attempt_classification stExample "tls handshake failure" 7
      (some "ok") false 5).2.2.2 rfl

/-- C6 (amended).  The response-path metric always carries both the
`response_constraints_fulfilled` and the `response_time_constraints_fulfilled`
tags; when no body check is configured (`responses_contains` empty) the
body tag reads "true", and when no response-time check is configured (mode
neither SHORTER_THAN nor LONGER_THAN) the time tag reads "true". -/
theorem response_metric_constraint_tags (st : HTTPCheckState) (statusCode : ℤ)
    (body : Option String) (readErr : Bool) (responseTimeNs : ℤ) (m : Metric)
    (h : (performRequest st (.response statusCode body readErr responseTimeNs)).1 = some m) :
    (m.tags.lookup "response_constraints_fulfilled"
        = some (toString (responseBodyWasSuccessful st body readErr))) ∧
    (m.tags.lookup "response_time_constraints_fulfilled"
        = some (toString (responseTimeWasSuccessful st responseTimeNs))) ∧
    (st.ResponsesContains = "" → responseBodyWasSuccessful st body readErr = true) ∧
    (st.ResponseTimeMode ≠ "SHORTER_THAN" → st.ResponseTimeMode ≠ "LONGER_THAN" →
      responseTimeWasSuccessful st responseTimeNs = true) := by
  have hm : m = onResponseMetric st statusCode
      (st.ExpectedStatusCodes.contains (intToString statusCode))
      (responseBodyWasSuccessful st body readErr)
      (responseTimeWasSuccessful st responseTimeNs) responseTimeNs := by
    simpa [performRequest] using h.symm
  subst hm
  refine ⟨rfl, rfl, fun hrc => ?_, fun hs hl => ?_⟩
  · simp [responseBodyWasSuccessful, hrc]
  · simp [responseTimeWasSuccessful, hs, hl]

/-- Counterexample for C6 as stated: with no body check configured
(`ResponsesContains = ""`) and no time check configured (mode "NONE"),
the claim predicts that both tags are absent from the metric, but the
code emits both tags (with value "true"). -/
theorem response_metric_tags_always_present_counterexample :
    stExample.ResponsesContains = "" ∧ stExample.ResponseTimeMode = "NONE" ∧
    ((performRequest stExample (.response 200 (some "hello") false 5)).1.map
        (fun m => m.tags.lookup "response_constraints_fulfilled")) = some (some "true") ∧
    ((performRequest stExample (.response 200 (some "hello") false 5)).1.map
        (fun m => m.tags.lookup "response_time_constraints_fulfilled")) = some (some "true") := by
  refine ⟨rfl, rfl, rfl, rfl⟩

/-- Witness for C6 (amended) at a concrete response. -/
theorem response_metric_constraint_tags_witness :
    ((onResponseMetric stExample 200 false true true 5).tags.lookup
        "response_constraints_fulfilled" = some (toString true)) ∧
    ((onResponseMetric stExample 200 false true true 5).tags.lookup
        "response_time_constraints_fulfilled" = some (toString true)) := by
  have h := response_metric_constraint_tags stExample 200 (some "hello") false 5
    (onResponseMetric stExample 200 false true true 5) (by decide)
  exact ⟨h.1.trans (by decide), h.2.1.trans (by decide)⟩

/-! ### Scheduler and worker interleaving (httpchecker.go, `start` and the
worker loop) as a transition system.

`start` pushes one ticket into the bounded work channel and increments
`requested`, then starts a goroutine that on every ticker tick attempts a
non-blocking push (incrementing `requested` on success, dropping the tick
when the channel is full) and shuts down once `requested` reaches
`maxRequests` (when positive) or the context is cancelled.  Workers drain
the channel, start attempts, and finish them as success, failure, or
silent cancellation.  `ticketsPushed` and `tickEvents` are ghost counters
of channel pushes and of ticker ticks. -/

structure SchedConfig where
  maxRequests : ℕ
  maxConcurrent : ℕ
  deriving DecidableEq, Repr

structure SchedState where
  requested : ℕ
  started : ℕ
  success : ℕ
  failed : ℕ
  chanQueue : ℕ
  inFlight : ℕ
  ticketsPushed : ℕ
  tickEvents : ℕ
  schedulerOpen : Bool
  canceled : Bool
  deadlinePassed : Bool
  deriving DecidableEq, Repr

/-- The engine state right after `checker.start()` ran its unconditional
first push (`c.work <- struct{}{}; c.counters.requested.Add(1)`). -/
def initState : SchedState :=
  { requested := 1, started := 0, success := 0, failed := 0, chanQueue := 1
    inFlight := 0, ticketsPushed := 1, tickEvents := 0, schedulerOpen := true
    canceled := false, deadlinePassed := false }

/-- One interleaving step of the scheduler goroutine, the worker pool and
the environment. -/
inductive Step (cfg : SchedConfig) : SchedState → SchedState → Prop where
  /-- A tick fires and the non-blocking push succeeds (`case c.work <- ...`):
  `requested` is incremented and the scheduler shuts down when the new
  counter value reaches `maxRequests > 0`. -/
  | tickPush (s : SchedState) (hopen : s.schedulerOpen = true)
      (hq : s.chanQueue < cfg.maxConcurrent) :
      Step cfg s { s with
        requested := s.requested + 1
        ticketsPushed := s.ticketsPushed + 1
        tickEvents := s.tickEvents + 1
        chanQueue := s.chanQueue + 1
        schedulerOpen :=
          if 0 < cfg.maxRequests ∧ cfg.maxRequests ≤ s.requested + 1 then false else true }
  /-- A tick fires while all workers are busy (`default:` branch): the tick
  is dropped, `requested` is untouched. -/
  | tickDrop (s : SchedState) (hopen : s.schedulerOpen = true)
      (hq : cfg.maxConcurrent ≤ s.chanQueue) :
      Step cfg s { s with tickEvents := s.tickEvents + 1 }
  /-- A `stop` call trips the engine's cancellation token. -/
  | cancelToken (s : SchedState) :
      Step cfg s { s with canceled := true }
  /-- The scheduler observes `<-c.ctx.Done()` and shuts down, closing the
  work channel. -/
  | ctxDone (s : SchedState) (hopen : s.schedulerOpen = true)
      (hc : s.canceled = true) :
      Step cfg s { s with schedulerOpen := false }
  /-- A worker receives a ticket and begins an attempt
  (`c.counters.started.Add(1)` in `performRequest`). -/
  | takeTicket (s : SchedState) (hq : 0 < s.chanQueue) :
      Step cfg s { s with
        chanQueue := s.chanQueue - 1, started := s.started + 1
        inFlight := s.inFlight + 1 }
  /-- A worker receives a ticket but `createRequest` fails: the ticket is
  consumed, no attempt is started. -/
  | takeTicketCreateFail (s : SchedState) (hq : 0 < s.chanQueue) :
      Step cfg s { s with chanQueue := s.chanQueue - 1 }
  /-- An in-flight attempt finishes and is counted successful. -/
  | finishSuccess (s : SchedState) (hf : 0 < s.inFlight) :
      Step cfg s { s with inFlight := s.inFlight - 1, success := s.success + 1 }
  /-- An in-flight attempt finishes and is counted failed. -/
  | finishFailed (s : SchedState) (hf : 0 < s.inFlight) :
      Step cfg s { s with inFlight := s.inFlight - 1, failed := s.failed + 1 }
  /-- An in-flight attempt observes the cancelled context and returns
  silently (no metric, no counter change). -/
  | finishCanceled (s : SchedState) (hf : 0 < s.inFlight) :
      Step cfg s { s with inFlight := s.inFlight - 1 }
  /-- The wall clock passes `state.Timeout`. -/
  | deadlineHits (s : SchedState) :
      Step cfg s { s with deadlinePassed := true }

/-- States reachable from the post-`start` state. -/
inductive Reach (cfg : SchedConfig) : SchedState → Prop where
  | init : Reach cfg initState
  | step {s s' : SchedState} : Reach cfg s → Step cfg s s' → Reach cfg s'

/-- The `completed` computation of `func status` (part_006): in
FIXED_AMOUNT mode (`NumberOfRequests > 0`), completed once
`success + failed >= maxRequests` or the deadline has passed. -/
def statusCompleted (cfg : SchedConfig) (s : SchedState) : Bool :=
  if 0 < cfg.maxRequests then
    decide (cfg.maxRequests ≤ s.success + s.failed) || s.deadlinePassed
  else false

/-- The inductive invariant of the engine. -/
def SchedInv (cfg : SchedConfig) (s : SchedState) : Prop :=
  s.ticketsPushed = s.requested ∧
  s.success + s.failed + s.inFlight ≤ s.started ∧
  s.started + s.chanQueue ≤ s.requested ∧
  (2 ≤ cfg.maxRequests →
    s.requested ≤ cfg.maxRequests ∧
    (s.schedulerOpen = true → s.requested < cfg.maxRequests))


theorem step_schedInv {cfg : SchedConfig} {s s' : SchedState}
    (hstep : Step cfg s s') (ih : SchedInv cfg s) : SchedInv cfg s' := by
  obtain ⟨i1, i2, i3, i4⟩ := ih
  cases hstep with
  | tickPush hopen hq =>
    refine ⟨?_, ?_, ?_, fun hn => ?_⟩
    · show s.ticketsPushed + 1 = s.requested + 1
      omega
    · show s.success + s.failed + s.inFlight ≤ s.started
      omega
    · show s.started + (s.chanQueue + 1) ≤ s.requested + 1
      omega
    · have hlt := (i4 hn).2 hopen
      constructor
      · show s.requested + 1 ≤ cfg.maxRequests
        omega
      · show (if 0 < cfg.maxRequests ∧ cfg.maxRequests ≤ s.requested + 1 then false else true)
            = true → s.requested + 1 < cfg.maxRequests
        by_cases hcond : 0 < cfg.maxRequests ∧ cfg.maxRequests ≤ s.requested + 1
        · rw [if_pos hcond]; intro hfalse; exact absurd hfalse (by simp)
        · rw [if_neg hcond]; intro _; omega
  | tickDrop hopen hq => exact ⟨i1, i2, i3, i4⟩
  | cancelToken => exact ⟨i1, i2, i3, i4⟩
  | ctxDone hopen hc =>
    refine ⟨i1, i2, i3, fun hn => ⟨(i4 hn).1, fun hopen' => ?_⟩⟩
    exact absurd hopen' (by simp)
  | takeTicket hq =>
    refine ⟨i1, ?_, ?_, fun hn => ⟨(i4 hn).1, (i4 hn).2⟩⟩
    · show s.success + s.failed + (s.inFlight + 1) ≤ s.started + 1
      omega
    · show s.started + 1 + (s.chanQueue - 1) ≤ s.requested
      omega
  | takeTicketCreateFail hq =>
    refine ⟨i1, i2, ?_, fun hn => ⟨(i4 hn).1, (i4 hn).2⟩⟩
    show s.started + (s.chanQueue - 1) ≤ s.requested
    omega
  | finishSuccess hf =>
    refine ⟨i1, ?_, i3, fun hn => ⟨(i4 hn).1, (i4 hn).2⟩⟩
    show s.success + 1 + s.failed + (s.inFlight - 1) ≤ s.started
    omega
  | finishFailed hf =>
    refine ⟨i1, ?_, i3, fun hn => ⟨(i4 hn).1, (i4 hn).2⟩⟩
    show s.success + (s.failed + 1) + (s.inFlight - 1) ≤ s.started
    omega
  | finishCanceled hf =>
    refine ⟨i1, ?_, i3, fun hn => ⟨(i4 hn).1, (i4 hn).2⟩⟩
    show s.success + s.failed + (s.inFlight - 1) ≤ s.started
    omega
  | deadlineHits => exact ⟨i1, i2, i3, i4⟩

theorem reach_schedInv {cfg : SchedConfig} {s : SchedState} (h : Reach cfg s) :
    SchedInv cfg s := by
  induction h with
  | init =>
    refine ⟨rfl, ?_, ?_, fun hn => ⟨?_, fun _ => ?_⟩⟩
    · show 0 + 0 + 0 ≤ 0; omega
    · show 0 + 1 ≤ 1; omega
    · show 1 ≤ cfg.maxRequests; omega
    · show 1 < cfg.maxRequests; omega
  | step hr hstep ih => exact step_schedInv hstep ih

/-- C7.  `requested` counts exactly the tickets placed into the work
channel: it is incremented precisely by the pushes (the initial one and
every successful non-blocking push), never by dropped ticks. -/
theorem requested_eq_ticketsPushed {cfg : SchedConfig} {s : SchedState}
    (hr : Reach cfg s) : s.requested = s.ticketsPushed :=
  ((reach_schedInv hr).1).symm

/-- A sample configuration: FIXED_AMOUNT with 5 requests, 2 workers. -/
def cfgBound : SchedConfig := { maxRequests := 5, maxConcurrent := 2 }

/-- Witness for C7 at the post-start state. -/
theorem requested_eq_ticketsPushed_witness :
    initState.requested = initState.ticketsPushed :=
  @requested_eq_ticketsPushed cfgBound initState Reach.init

/-- C10.  In FIXED_AMOUNT mode with `number_of_requests = n ≥ 2` the
`requested` counter never exceeds `n`: the scheduler shuts down on the
push that brings the counter to `n`. -/
theorem requested_never_exceeds_max {cfg : SchedConfig} {s : SchedState}
    (hn : 2 ≤ cfg.maxRequests) (hr : Reach cfg s) :
    s.requested ≤ cfg.maxRequests :=
  ((reach_schedInv hr).2.2.2 hn).1

/-- Witness for C10 at the post-start state with `n = 5`. -/
theorem requested_never_exceeds_max_witness :
    initState.requested ≤ cfgBound.maxRequests :=
  @requested_never_exceeds_max cfgBound initState (by decide) Reach.init

/-- FIXED_AMOUNT with 2 requests and 1 worker. -/
def cfgTwo : SchedConfig := { maxRequests := 2, maxConcurrent := 1 }

/-- The post-start state after the deadline has passed. -/
def stateDeadline : SchedState := { initState with deadlinePassed := true }

/-- FIXED_AMOUNT with a single request and 2 workers. -/
def cfgOne : SchedConfig := { maxRequests := 1, maxConcurrent := 2 }

/-- A reachable state for `cfgOne` in which the one allowed request has
completed but two tickets were issued: the initial push does not check
`maxRequests`, and the shutdown check runs only after the tick push has
already incremented `requested` to 2. -/
def stateOvershoot : SchedState :=
  { requested := 2, started := 1, success := 1, failed := 0, chanQueue := 1
    inFlight := 0, ticketsPushed := 2, tickEvents := 1, schedulerOpen := false
    canceled := false, deadlinePassed := false }

theorem reach_stateOvershoot : Reach cfgOne stateOvershoot :=
  Reach.step
    (Reach.step
      (Reach.step Reach.init (Step.tickPush initState rfl (by decide)))
      (Step.takeTicket _ (by decide)))
    (Step.finishSuccess _ (by decide))

/-- Counterexample for C3 as stated.  Two reachable situations where
`status` reports `completed = true` yet `requested ≠ number_of_requests`:
(a) the deadline passed with only the initial ticket issued
(`requested = 1 < 2`); (b) with `number_of_requests = 1` the tick push
overshoots to `requested = 2 > 1` before the scheduler shuts down. -/
theorem status_completed_requested_counterexample :
    (Reach cfgTwo stateDeadline ∧ statusCompleted cfgTwo stateDeadline = true ∧
      stateDeadline.requested ≠ cfgTwo.maxRequests) ∧
    (Reach cfgOne stateOvershoot ∧ statusCompleted cfgOne stateOvershoot = true ∧
      stateOvershoot.requested ≠ cfgOne.maxRequests) :=
  ⟨⟨Reach.step Reach.init (Step.deadlineHits initState), by decide, by decide⟩,
   ⟨reach_stateOvershoot, by decide, by decide⟩⟩

/-- C3 (amended).  In FIXED_AMOUNT mode with `number_of_requests = n ≥ 2`,
whenever `status` reports `completed = true` through the completion-count
rule (not through the deadline), `requested = n` exactly. -/
theorem fixed_amount_completed_requested_eq {cfg : SchedConfig} {s : SchedState}
    (hn : 2 ≤ cfg.maxRequests) (hr : Reach cfg s)
    (hc : statusCompleted cfg s = true) (hd : s.deadlinePassed = false) :
    s.requested = cfg.maxRequests := by
  obtain ⟨i1, i2, i3, i4⟩ := reach_schedInv hr
  have h4 := i4 hn
  have hn0 : 0 < cfg.maxRequests := by omega
  unfold statusCompleted at hc
  rw [if_pos hn0, hd] at hc
  simp only [Bool.or_false, decide_eq_true_eq] at hc
  omega

/-- FIXED_AMOUNT with 2 requests and 2 workers, for the C3 witness. -/
def cfgTwoWide : SchedConfig := { maxRequests := 2, maxConcurrent := 2 }

/-- Both tickets issued, both attempts completed successfully. -/
def stateCompletedTwo : SchedState :=
  { requested := 2, started := 2, success := 2, failed := 0, chanQueue := 0
    inFlight := 0, ticketsPushed := 2, tickEvents := 1, schedulerOpen := false
    canceled := false, deadlinePassed := false }

theorem reach_stateCompletedTwo : Reach cfgTwoWide stateCompletedTwo :=
  Reach.step
    (Reach.step
      (Reach.step
        (Reach.step
          (Reach.step Reach.init (Step.tickPush initState rfl (by decide)))
          (Step.takeTicket _ (by decide)))
        (Step.finishSuccess _ (by decide)))
      (Step.takeTicket _ (by decide)))
    (Step.finishSuccess _ (by decide))

/-- Witness for C3 (amended): a completed run with `n = 2`. -/
theorem fixed_amount_completed_requested_eq_witness :
    stateCompletedTwo.requested = cfgTwoWide.maxRequests :=
  fixed_amount_completed_requested_eq (by decide) reach_stateCompletedTwo
    (by decide) rfl

/-! ### FIXED_AMOUNT delay derivation (fixAmount.go) -/

/-- Result of the FIXED_AMOUNT `Prepare`: a hard error, a soft
(`PrepareResult.Error`) validation error, or the derived
`DelayBetweenRequests` in nanoseconds. -/
inductive PrepareOutcome where
  | hardError (msg : String)
  | softError (err : ActionKitError)
  | ok (delayNs : ℤ)
  deriving DecidableEq, Repr

/-- The delay derivation of `httpCheckActionFixedAmount.Prepare`
(fixAmount.go): with `duration` in ms,

    duration := time.Duration(config["duration"]) * time.Millisecond
    if duration <= 0 { error }
    if n == 0 { error }
    else if n == 1 { delay = 24h }
    else { delay = time.Duration(uint64(duration) / n) }
    if delay < time.Millisecond { soft error }
-/
def fixedAmountPrepare (durationMs : ℤ) (numberOfRequests : ℕ) : PrepareOutcome :=
  let duration : ℤ := durationMs * 1000000
  if duration ≤ 0 then .hardError "duration must be greater than 0"
  else if numberOfRequests = 0 then .hardError "number of requests must be greater than 0"
  else
    let delay : ℤ :=
      if numberOfRequests = 1 then 86400000000000
      else ((duration.toNat / numberOfRequests : ℕ) : ℤ)
    if delay < 1000000 then
      .softError { title := "The given Number of Requests is too high for the given duration. Please reduce the number of requests or increase the duration." }
    else .ok delay

/-- Model of `getDelayBetweenRequestsInMsFixedAmount` (fixAmount.go):

    if duration > 0 && numberOfRequests > 0 { return duration / numberOfRequests }
    else { return 1000 / 1 }

(Go `/` on int64 truncates toward zero, `Int.tdiv` here.) -/
def getDelayBetweenRequestsInMsFixedAmount (duration numberOfRequests : ℤ) : ℤ :=
  if 0 < duration ∧ 0 < numberOfRequests then duration.tdiv numberOfRequests
  else 1000

/-- C2 (code bug).  The spec — and the repository's own tests
(`TestNewHTTPCheckActionFixedAmount_start_directly` expects requests at
t = 0 ms, 1000 ms, 2000 ms for duration 2000 ms and n = 3, i.e. a delay of
`2000 / (3 − 1)` ms) — require `delay = duration / (n − 1)` for `n ≥ 2`,
but both delay derivations in the code divide by `n`: for duration
2000 ms and n = 3 the code yields 666 ms (666666666 ns) instead of the
specified 1000 ms (1000000000 ns).  The `n = 1` clause (24 h) matches. -/
theorem fixed_amount_delay_divides_by_n :
    fixedAmountPrepare 2000 3 = .ok 666666666 ∧
    getDelayBetweenRequestsInMsFixedAmount 2000 3 = 666 ∧
    (2000 * 1000000) / (3 - 1) = 1000000000 ∧
    666666666 ≠ 1000000000 ∧
    fixedAmountPrepare 2000 1 = .ok 86400000000000 := by
  refine ⟨by decide, by decide, by norm_num, by decide, by decide⟩

/-! ### Status-code expression resolver (util.go,
`resolveStatusCodeExpression`) -/

/-- Model of `strings.Split` on a one-character separator. -/
def splitOnChar (sep : Char) : List Char → List (List Char)
  | [] => [[]]
  | c :: rest =>
    if c = sep then [] :: splitOnChar sep rest
    else
      match splitOnChar sep rest with
      | [] => [[c]]
      | h :: t => (c :: h) :: t

theorem splitOnChar_ne_nil (sep : Char) (cs : List Char) :
    splitOnChar sep cs ≠ [] := by
  induction cs with
  | nil => simp [splitOnChar]
  | cons c rest ih =>
    simp only [splitOnChar]
    by_cases hc : c = sep
    · simp [hc]
    · simp only [if_neg hc]
      cases h : splitOnChar sep rest with
      | nil => simp
      | cons h t => simp

theorem not_mem_of_mem_splitOnChar {sep : Char} {cs part : List Char}
    (h : part ∈ splitOnChar sep cs) : sep ∉ part := by
  induction cs generalizing part with
  | nil =>
    simp only [splitOnChar, List.mem_singleton] at h
    subst h; simp
  | cons c rest ih =>
    simp only [splitOnChar] at h
    by_cases hc : c = sep
    · rw [if_pos hc] at h
      rcases List.mem_cons.mp h with h1 | h2
      · subst h1; simp
      · exact ih h2
    · rw [if_neg hc] at h
      cases hs : splitOnChar sep rest with
      | nil => exact absurd hs (splitOnChar_ne_nil sep rest)
      | cons hd tl =>
        rw [hs] at h
        rcases List.mem_cons.mp h with h1 | h2
        · subst h1
          intro hmem
          rcases List.mem_cons.mp hmem with h3 | h4
          · exact hc h3.symm
          · exact (ih (hs ▸ List.mem_cons_self hd tl)) h4
        · exact ih (hs ▸ List.mem_cons.mpr (Or.inr h2))

theorem splitOnChar_single {sep : Char} {cs : List Char} (h : sep ∉ cs) :
    splitOnChar sep cs = [cs] := by
  induction cs with
  | nil => rfl
  | cons c rest ih =>
    have hc : ¬ c = sep := fun hh => h (hh ▸ List.mem_cons_self c rest)
    simp only [splitOnChar, if_neg hc]
    rw [ih (fun hm => h (List.mem_cons.mpr (Or.inr hm)))]

theorem two_le_splitOnChar_length {sep : Char} {cs : List Char} (h : sep ∈ cs) :
    2 ≤ (splitOnChar sep cs).length := by
  induction cs with
  | nil => simp at h
  | cons c rest ih =>
    simp only [splitOnChar]
    by_cases hc : c = sep
    · rw [if_pos hc]
      have := splitOnChar_ne_nil sep rest
      have : 1 ≤ (splitOnChar sep rest).length := by
        cases hs : splitOnChar sep rest with
        | nil => exact absurd hs (splitOnChar_ne_nil sep rest)
        | cons a t => simp
      simp only [List.length_cons]
      omega
    · rw [if_neg hc]
      have hmem : sep ∈ rest := by
        rcases List.mem_cons.mp h with h1 | h2
        · exact absurd h1.symm hc
        · exact h2
      cases hs : splitOnChar sep rest with
      | nil => exact absurd hs (splitOnChar_ne_nil sep rest)
      | cons hd tl =>
        have := ih hmem
        rw [hs] at this
        simp only [List.length_cons] at this ⊢
        omega

/-- Model of `strings.Trim` with a space cutset: strip leading and trailing spaces. -/
def trimSpaces (cs : List Char) : List Char :=
  ((cs.dropWhile (· = ' ')).reverse.dropWhile (· = ' ')).reverse

/-- Value of a string of decimal digits (most significant first). -/
def digitsVal (cs : List Char) : ℕ :=
  cs.foldl (fun acc c => acc * 10 + (c.toNat - 48)) 0

/-- The digits-and-bounds part of `strconv.Atoi` once an optional sign has
been stripped: at least one digit, all digits, result within `int64`. -/
def atoiDigits (neg : Bool) (ds : List Char) : Option ℤ :=
  if ds = [] then none
  else if ds.all Char.isDigit then
    let v : ℤ := if neg then -(digitsVal ds : ℤ) else (digitsVal ds : ℤ)
    if v < -(2 ^ 63) ∨ (2 ^ 63 - 1 : ℤ) < v then none else some v
  else none

/-- Model of `strconv.Atoi`: optional sign, decimal digits, `int64` range. -/
def atoi (cs : List Char) : Option ℤ :=
  match cs with
  | [] => atoiDigits false []
  | c :: rest =>
    if c = '-' then atoiDigits true rest
    else if c = '+' then atoiDigits false rest
    else atoiDigits false (c :: rest)

/-- Error for a malformed range or numeral (Go: "Invalid status code
range/`code` ... Please use - for ranges and ; for enumerations."). -/
def invalidRangeErr (cs : List Char) : ActionKitError :=
  { title := "Invalid status code range " ++ String.mk cs
      ++ ". Please use - for ranges and ; for enumerations. Example: 200-399;429" }

def invalidCodeErr (cs : List Char) : ActionKitError :=
  { title := "Invalid status code " ++ String.mk cs
      ++ ". Please use - for ranges and ; for enumerations. Example: 200-399;429" }

def outOfBoundsErr (v : ℤ) : ActionKitError :=
  { title := "Invalid status code " ++ intToString v
      ++ ". Status code should be between 100 and 599." }

/-- The loop `for i := startCode; i <= endCode; i++` of the resolver,
iterated on the number of remaining values: each value is checked to lie
in 100..599 (error out otherwise) and rendered in decimal. -/
def rangeLoopGo : ℕ → ℤ → Except ActionKitError (List String)
  | 0, _ => .ok []
  | n + 1, i =>
    if i < 100 ∨ 599 < i then .error (outOfBoundsErr i)
    else
      match rangeLoopGo n (i + 1) with
      | .error e => .error e
      | .ok rest => .ok (intToString i :: rest)

/-- The range loop from `startCode` to `endCode` inclusive. -/
def rangeLoop (lo hi : ℤ) : Except ActionKitError (List String) :=
  rangeLoopGo (hi + 1 - lo).toNat lo

/-- One `item` of the expression, as the resolver handles it: a range when
it contains a dash, otherwise the empty check, the "error" token, or a
single numeral. -/
def resolveItem (cs : List Char) : Except ActionKitError (List String) :=
  if '-' ∈ cs then
    match splitOnChar '-' cs with
    | [a, b] =>
      match atoi a with
      | none => .error (invalidRangeErr cs)
      | some lo =>
        match atoi b with
        | none => .error (invalidRangeErr cs)
        | some hi => rangeLoop lo hi
    | _ => .error (invalidRangeErr cs)
  else if cs = [] then .error { title := "Status code is required." }
  else if cs = "error".data then .ok ["error"]
  else
    match atoi cs with
    | none => .error (invalidCodeErr cs)
    | some v =>
      if v < 100 ∨ 599 < v then .error (outOfBoundsErr v)
      else .ok [intToString v]

def resolveItems : List (List Char) → Except ActionKitError (List String)
  | [] => .ok []
  | item :: rest =>
    match resolveItem item with
    | .error e => .error e
    | .ok l =>
      match resolveItems rest with
      | .error e => .error e
      | .ok ls => .ok (l ++ ls)

/-- Model of `resolveStatusCodeExpression` (util.go): trim outer spaces, split on
semicolons, resolve each item, concatenating the produced tokens; the
first invalid item aborts with a structured error. -/
def resolveStatusCodeExpression (statusCodes : String) :
    Except ActionKitError (List String) :=
  resolveItems (splitOnChar ';' (trimSpaces statusCodes.data))

/-! Grammar denotation (spec side).  The spec grammar is

    expr   := item (';' item)*
    item   := range | code | 'error'
    range  := int '-' int        ; both inclusive, 100 ≤ lo ≤ hi ≤ 599
    code   := int                ; 100..599

with outer whitespace trimmed, numeric codes rendered as decimal strings
and 'error' kept literally.  `specExprDenote` reads `int` as a plain
digit string.  Since an `int` contains no dash, an item parses as a range
exactly when splitting it on dashes yields two ints. -/

/-- Grammar `int := digit+` (spec reading). -/
def specInt (cs : List Char) : Option ℕ :=
  if cs ≠ [] ∧ cs.all Char.isDigit then some (digitsVal cs) else none

/-- The decimal renderings of `n` consecutive values starting at `i`. -/
def rangeTokensGo : ℕ → ℤ → List String
  | 0, _ => []
  | n + 1, i => intToString i :: rangeTokensGo n (i + 1)

/-- The decimal renderings of all values from `lo` to `hi`, inclusive. -/
def rangeTokens (lo hi : ℤ) : List String :=
  rangeTokensGo (hi + 1 - lo).toNat lo

/-- Denotation of one grammar `item`. -/
def specItemDenote (cs : List Char) : Option (List String) :=
  if cs = "error".data then some ["error"]
  else
    match splitOnChar '-' cs with
    | [a, b] =>
      match specInt a, specInt b with
      | some lo, some hi =>
        if 100 ≤ lo ∧ lo ≤ hi ∧ hi ≤ 599 then some (rangeTokens lo hi) else none
      | _, _ => none
    | [a] =>
      match specInt a with
      | some v => if 100 ≤ v ∧ v ≤ 599 then some [intToString (v : ℤ)] else none
      | none => none
    | _ => none

def specItemsDenote : List (List Char) → Option (List String)
  | [] => some []
  | item :: rest =>
    match specItemDenote item, specItemsDenote rest with
    | some l, some ls => some (l ++ ls)
    | _, _ => none

/-- Denotation of the full grammar on an input string (`none` = the input
is invalid and must produce a structured error). -/
def specExprDenote (s : String) : Option (List String) :=
  specItemsDenote (splitOnChar ';' (trimSpaces s.data))

/-! Amended grammar denotation: `int` follows Go `Atoi` syntax (an
optional leading '+' sign is allowed; the value must fit in `int64`), and
a range whose parsed bounds satisfy `lo > hi` is accepted and denotes no
codes at all. -/

/-- Digit run with the `Atoi` `int64` bound (only reachable non-negative). -/
def atoiPlusDigits (ds : List Char) : Option ℕ :=
  if ds ≠ [] ∧ ds.all Char.isDigit then
    if (2 ^ 63 - 1 : ℤ) < (digitsVal ds : ℤ) then none else some (digitsVal ds)
  else none

/-- Amended `int`: optional '+' sign, digits, `int64` bound. -/
def atoiPlus (cs : List Char) : Option ℕ :=
  match cs with
  | [] => atoiPlusDigits []
  | c :: rest => if c = '+' then atoiPlusDigits rest else atoiPlusDigits (c :: rest)

/-- Denotation of one item under the amended grammar. -/
def amendedItemDenote (cs : List Char) : Option (List String) :=
  if cs = "error".data then some ["error"]
  else
    match splitOnChar '-' cs with
    | [a, b] =>
      match atoiPlus a, atoiPlus b with
      | some lo, some hi =>
        if (hi : ℤ) < (lo : ℤ) then some []
        else if 100 ≤ lo ∧ hi ≤ 599 then some (rangeTokens lo hi) else none
      | _, _ => none
    | [a] =>
      match atoiPlus a with
      | some v => if 100 ≤ v ∧ v ≤ 599 then some [intToString (v : ℤ)] else none
      | none => none
    | _ => none

def amendedItemsDenote : List (List Char) → Option (List String)
  | [] => some []
  | item :: rest =>
    match amendedItemDenote item, amendedItemsDenote rest with
    | some l, some ls => some (l ++ ls)
    | _, _ => none

/-- Denotation of the amended grammar on an input string. -/
def amendedExprDenote (s : String) : Option (List String) :=
  amendedItemsDenote (splitOnChar ';' (trimSpaces s.data))

theorem atoiDigits_false_eq (ds : List Char) :
    atoiDigits false ds = (atoiPlusDigits ds).map (fun (n : ℕ) => (n : ℤ)) := by
  unfold atoiDigits atoiPlusDigits
  by_cases hnil : ds = []
  · simp [hnil]
  · by_cases hdig : ds.all Char.isDigit
    · have hcast : (0 : ℤ) ≤ (digitsVal ds : ℤ) := Int.natCast_nonneg _
      simp only [if_neg hnil, hdig, if_true, ne_eq, hnil, not_false_eq_true, true_and,
        Bool.false_eq_true, if_false]
      by_cases hb : (9223372036854775807 : ℕ) < digitsVal ds
      · simp [hb]
      · have hneg : ¬ ((digitsVal ds : ℤ) < -9223372036854775808) := by omega
        simp [hneg, hb]
    · simp [hnil, hdig]

theorem atoi_eq_atoiPlus {cs : List Char} (h : '-' ∉ cs) :
    atoi cs = (atoiPlus cs).map (fun (n : ℕ) => (n : ℤ)) := by
  cases cs with
  | nil => exact atoiDigits_false_eq []
  | cons c rest =>
    have hcne : ¬ c = '-' := fun hh => h (hh ▸ List.mem_cons_self c rest)
    by_cases hplus : c = '+'
    · simp only [atoi, atoiPlus, if_neg hcne, if_pos hplus]
      exact atoiDigits_false_eq rest
    · simp only [atoi, atoiPlus, if_neg hcne, if_neg hplus]
      exact atoiDigits_false_eq (c :: rest)

theorem rangeLoopGo_ok (n : ℕ) (i : ℤ)
    (h : n = 0 ∨ (100 ≤ i ∧ i + n ≤ 600)) :
    rangeLoopGo n i = .ok (rangeTokensGo n i) := by
  induction n generalizing i with
  | zero => rfl
  | succ n ih =>
    have hcond : 100 ≤ i ∧ i + (n + 1 : ℕ) ≤ 600 := by
      rcases h with h0 | hc
      · exact absurd h0 (by omega)
      · exact hc
    have hb : ¬ (i < 100 ∨ 599 < i) := by
      push_cast at hcond
      omega
    simp only [rangeLoopGo, if_neg hb]
    rw [ih (i + 1) ?_]
    · rfl
    · by_cases hn0 : n = 0
      · exact Or.inl hn0
      · right
        push_cast at hcond ⊢
        omega

theorem rangeLoopGo_none (n : ℕ) (i : ℤ)
    (h : ¬ (n = 0 ∨ (100 ≤ i ∧ i + n ≤ 600))) :
    (rangeLoopGo n i).toOption = none := by
  induction n generalizing i with
  | zero => exact absurd (Or.inl rfl) h
  | succ n ih =>
    push_neg at h
    by_cases hb : i < 100 ∨ 599 < i
    · simp [rangeLoopGo, hb, Except.toOption]
    · have hbounds : 100 ≤ i ∧ i ≤ 599 := by push_neg at hb; exact hb
      have hviol : 600 < i + (n + 1 : ℕ) := by
        have hlt := h.2 hbounds.1
        push_cast at hlt ⊢
        omega
      have hrec : ¬ (n = 0 ∨ (100 ≤ i + 1 ∧ (i + 1) + n ≤ 600)) := by
        push_cast at hviol
        push_neg
        refine ⟨fun hn0 => ?_, fun h1 => ?_⟩
        · subst hn0; omega
        · omega
      have hih := ih (i + 1) hrec
      simp only [rangeLoopGo, if_neg hb]
      cases hcall : rangeLoopGo n (i + 1) with
      | error e => simp [Except.toOption]
      | ok rest => rw [hcall] at hih; simp [Except.toOption] at hih

theorem rangeLoop_toOption (lo hi : ℤ) :
    (rangeLoop lo hi).toOption =
      if hi < lo then some []
      else if 100 ≤ lo ∧ hi ≤ 599 then some (rangeTokens lo hi) else none := by
  unfold rangeLoop rangeTokens
  by_cases hlt : hi < lo
  · have hn : (hi + 1 - lo).toNat = 0 := by omega
    rw [hn, if_pos hlt]
    rfl
  · have hn : ((hi + 1 - lo).toNat : ℤ) = hi + 1 - lo := by omega
    have hnz : ¬ (hi + 1 - lo).toNat = 0 := by omega
    by_cases hcond : 100 ≤ lo ∧ hi ≤ 599
    · rw [rangeLoopGo_ok _ _ (Or.inr ⟨hcond.1, by omega⟩)]
      rw [if_neg hlt, if_pos hcond]
      rfl
    · rw [if_neg hlt, if_neg hcond]
      exact rangeLoopGo_none _ _ (by
        push_neg
        refine ⟨fun h0 => absurd h0 hnz, fun h100 => ?_⟩
        have : ¬ hi ≤ 599 := fun hh => hcond ⟨by omega, hh⟩
        omega)

theorem resolveItem_toOption (cs : List Char) :
    (resolveItem cs).toOption = amendedItemDenote cs := by
  by_cases hdash : '-' ∈ cs
  · have hne : ¬ cs = "error".data := by
      intro h; subst h; revert hdash; decide
    unfold resolveItem amendedItemDenote
    rw [if_pos hdash, if_neg hne]
    cases hs : splitOnChar '-' cs with
    | nil => exact absurd hs (splitOnChar_ne_nil _ _)
    | cons a t =>
      cases t with
      | nil =>
        have hlen := two_le_splitOnChar_length hdash
        rw [hs] at hlen
        simp at hlen
      | cons b t2 =>
        cases t2 with
        | nil =>
          have ha : '-' ∉ a :=
            not_mem_of_mem_splitOnChar (hs ▸ List.mem_cons_self a [b])
          have hb : '-' ∉ b :=
            not_mem_of_mem_splitOnChar
              (hs ▸ List.mem_cons.mpr (Or.inr (List.mem_cons_self b [])))
          dsimp only
          rw [atoi_eq_atoiPlus ha, atoi_eq_atoiPlus hb]
          cases hpa : atoiPlus a with
          | none => simp [Except.toOption]
          | some lo =>
            cases hpb : atoiPlus b with
            | none => simp [Except.toOption]
            | some hi =>
              simp only [Option.map_some']
              rw [rangeLoop_toOption]
              by_cases h1 : (hi : ℤ) < (lo : ℤ)
              · rw [if_pos h1, if_pos h1]
              · rw [if_neg h1, if_neg h1]
                by_cases h2 : 100 ≤ lo ∧ hi ≤ 599
                · have h2' : 100 ≤ (lo : ℤ) ∧ (hi : ℤ) ≤ 599 := by
                    constructor <;> [exact_mod_cast h2.1; exact_mod_cast h2.2]
                  rw [if_pos h2', if_pos h2]
                · have h2' : ¬ (100 ≤ (lo : ℤ) ∧ (hi : ℤ) ≤ 599) := by
                    intro hx
                    exact h2 ⟨by exact_mod_cast hx.1, by exact_mod_cast hx.2⟩
                  rw [if_neg h2', if_neg h2]
        | cons c t3 =>
          simp [Except.toOption]
  · have hs : splitOnChar '-' cs = [cs] := splitOnChar_single hdash
    by_cases hnil : cs = []
    · subst hnil; decide
    · by_cases herr : cs = "error".data
      · subst herr; decide
      · unfold resolveItem amendedItemDenote
        rw [if_neg hdash, if_neg hnil, if_neg herr, hs]
        rw [if_neg (show ¬ cs = ['e', 'r', 'r', 'o', 'r'] from herr)]
        dsimp only
        rw [atoi_eq_atoiPlus hdash]
        cases hpa : atoiPlus cs with
        | none => simp [Except.toOption]
        | some v =>
          simp only [Option.map_some']
          by_cases hv : (v : ℤ) < 100 ∨ 599 < (v : ℤ)
          · have hv' : ¬ (100 ≤ v ∧ v ≤ 599) := by
              rcases hv with hlo | hhi
              · intro hx; have := hx.1; omega
              · intro hx; have := hx.2; omega
            rw [if_pos hv, if_neg hv']
            rfl
          · have hv' : 100 ≤ v ∧ v ≤ 599 := by
              push_neg at hv
              constructor <;> omega
            rw [if_neg hv, if_pos hv']
            rfl

theorem resolveItems_toOption (l : List (List Char)) :
    (resolveItems l).toOption = amendedItemsDenote l := by
  induction l with
  | nil => rfl
  | cons item rest ih =>
    simp only [resolveItems, amendedItemsDenote]
    have h1 := resolveItem_toOption item
    cases hi : resolveItem item with
    | error e =>
      rw [hi] at h1
      rw [← h1]
      rfl
    | ok l1 =>
      rw [hi] at h1
      rw [← h1]
      cases hr : resolveItems rest with
      | error e2 =>
        rw [hr] at ih
        rw [← ih]
        rfl
      | ok ls =>
        rw [hr] at ih
        rw [← ih]
        rfl

/-- C4 (amended).  For every input string, the resolver either returns the
set denoted by the grammar — reading `int` with Go `Atoi` numeral syntax
(optional leading '+', `int64` range) and with a range whose bounds
satisfy `lo > hi` silently denoting no codes at all — or, on every input
the (amended) grammar rejects, returns a structured error.  It is a total
function: no input panics. -/
theorem resolver_matches_amended_grammar (s : String) :
    (resolveStatusCodeExpression s).toOption = amendedExprDenote s :=
  resolveItems_toOption _

/-- Counterexample for C4 as stated.  The reverse range "300-200" is not
generated by the spec grammar (it requires `lo ≤ hi`), so the claim
demands a structured error; the code instead returns success with no
codes — a silently-empty item.  Likewise "+200" is not an `int` of the
grammar read as plain digits, yet the resolver accepts it. -/
theorem resolver_reverse_range_counterexample :
    resolveStatusCodeExpression "300-200" = .ok [] ∧
    specExprDenote "300-200" = none ∧
    resolveStatusCodeExpression "+200" = .ok ["200"] ∧
    specExprDenote "+200" = none := by
  refine ⟨rfl, by decide, rfl, by decide⟩
